import Mathlib

/-!
Shallow embedding of the command-encoding and response-adaptation layer of
the aioredis client (source file: aioredis/util.py), together with theorems
settling the specification claims about it.

Python values are modelled by the inductive type PyVal below; byte strings
are lists of natural numbers (byte values); machine behaviour that matters
to the claims (exact-runtime-type dispatch, Python truthiness, tuple
membership tests by equality) is modelled explicitly.
-/

/-- Model of the Python runtime values that reach this layer.  A value is
tagged by its exact runtime type, mirroring how the source dispatches on
type(arg).  bytes and bytearray are both binary blobs and are modelled by
the single constructor bytes (they compare equal in Python and are encoded
identically).  A float carries its canonical decimal text representation
(the text Python str() produces for it), which is the only aspect of a
float this layer observes.  bool is kept distinct from int because Python
type dispatch distinguishes them (bool is a strict subclass of int).
list models sequence replies and unsupported structured arguments. -/
inductive PyVal : Type where
  | bytes (b : List Nat)
  | str (s : String)
  | int (i : Int)
  | float (r : String)
  | bool (b : Bool)
  | list (l : List PyVal)

/-- UTF-8 encoding of a single character, by scalar-value range. -/
def charUtf8 (c : Char) : List Nat :=
  let n := c.toNat
  if n < 128 then [n]
  else if n < 2048 then
    [192 + n / 64, 128 + n % 64]
  else if n < 65536 then
    [224 + n / 4096, 128 + n / 64 % 64, 128 + n % 64]
  else
    [240 + n / 262144, 128 + n / 4096 % 64, 128 + n / 64 % 64, 128 + n % 64]

/-- UTF-8 encoding of a text string, as a list of byte values.  Models
Python str.encode applied with the utf-8 codec. -/
def utf8Bytes (s : String) : List Nat :=
  s.data.foldr (fun c acc => charUtf8 c ++ acc) []

/-- Decimal digits (as ASCII byte values, most significant first) of a
natural number, with explicit recursion fuel so the definition is
structural and reduces in the kernel.  Fuel n + 1 always suffices for
input n. -/
def natToDigitsAux : Nat → Nat → List Nat
  | 0, _ => []
  | f + 1, n =>
    if n < 10 then [48 + n]
    else natToDigitsAux f (n / 10) ++ [48 + n % 10]

/-- ASCII decimal representation of a natural number: models Python
str(n).encode for n a nonnegative int. -/
def natToDigits (n : Nat) : List Nat :=
  natToDigitsAux (n + 1) n

/-- ASCII decimal representation of the length argument: the pure value
computed by the source function of the same name (its lru_cache memoisation
is modelled separately below and proved to return this same value's shape). -/
def _bytes_len (n : Nat) : List Nat :=
  natToDigits n

/-- ASCII decimal representation of a Python int, including the leading
minus sign for negative values: models str(i).encode('utf-8'). -/
def intRepr (i : Int) : List Nat :=
  if i < 0 then 45 :: natToDigits i.natAbs else natToDigits i.toNat

/-- Model of the source's _converters dictionary applied to a value:
the dictionary is keyed by exact runtime type with entries for bytes,
bytearray, str, int and float only; looking up any other runtime type
(bool included, despite being a subclass of int) misses the dictionary,
modelled by none.  On a hit the associated conversion is applied:
binary blobs pass through, text is UTF-8 encoded, ints and floats are
rendered as decimal text then UTF-8 encoded. -/
def _converters : PyVal → Option (List Nat)
  | .bytes b => some b
  | .str s => some (utf8Bytes s)
  | .int i => some (intRepr i)
  | .float r => some (utf8Bytes r)
  | .bool _ => none
  | .list _ => none

/-- One RESP bulk string: the dollar sign, the decimal byte length, CRLF,
the payload bytes, CRLF.  (36 is the dollar sign, 13 10 is CRLF.) -/
def bulk (b : List Nat) : List Nat :=
  36 :: (_bytes_len b.length ++ (13 :: 10 :: (b ++ [13, 10])))

/-- Concatenation of the bulk-string encodings of a list of payloads. -/
def joinBulks (bs : List (List Nat)) : List Nat :=
  bs.foldr (fun b t => bulk b ++ t) []

/-- The per-argument loop of encode_command: converts each argument through
the _converters table in order and emits its bulk-string fragment; the
first argument whose runtime type misses the table aborts the whole
encoding with an error identifying that argument (the source raises
TypeError naming the argument). -/
def encodeArgs : List PyVal → Except PyVal (List Nat)
  | [] => .ok []
  | a :: rest =>
    match _converters a with
    | none => .error a
    | some b =>
      match encodeArgs rest with
      | .error bad => .error bad
      | .ok tail => .ok (bulk b ++ tail)

/-- encode_command from the source: the asterisk header with the decimal
argument count and CRLF, followed by one bulk string per argument; fails
with the offending argument if any argument has an unsupported runtime
type, producing no buffer in that case.  (42 is the asterisk.) -/
def encode_command (args : List PyVal) : Except PyVal (List Nat) :=
  match encodeArgs args with
  | .error bad => .error bad
  | .ok body => .ok (42 :: (_bytes_len args.length ++ (13 :: 10 :: body)))

/-- Accumulating decimal-number reader for the reference parser: consumes
leading ASCII digits, returning the value read and the unconsumed rest. -/
def parseNatAux : List Nat → Nat → Nat × List Nat
  | [], acc => (acc, [])
  | b :: rest, acc =>
    if 48 ≤ b ∧ b ≤ 57 then parseNatAux rest (acc * 10 + (b - 48))
    else (acc, b :: rest)

/-- Modelled from the spec: one production of the reference RESP parser
(the parser itself is not part of the source; the spec's wire grammar
defines it).  Reads a bulk string: dollar sign, decimal length, CRLF,
exactly that many payload bytes, CRLF; returns the payload and the rest. -/
def parseBulk (s : List Nat) : Option (List Nat × List Nat) :=
  match s with
  | 36 :: rest =>
    match parseNatAux rest 0 with
    | (len, rest1) =>
      match rest1 with
      | 13 :: 10 :: rest2 =>
        if rest2.length < len then none
        else
          match rest2.drop len with
          | 13 :: 10 :: rest3 => some (rest2.take len, rest3)
          | _ => none
      | _ => none
  | _ => none

/-- Modelled from the spec: the reference parser's repetition of n bulk
strings, returning the payloads in order and the unconsumed rest. -/
def parseBulks : Nat → List Nat → Option (List (List Nat) × List Nat)
  | 0, s => some ([], s)
  | n + 1, s =>
    match parseBulk s with
    | none => none
    | some (b, s1) =>
      match parseBulks n s1 with
      | none => none
      | some (bs, s2) => some (b :: bs, s2)

/-- Modelled from the spec: the reference RESP request parser for the wire
grammar of a serialized command — asterisk, decimal count N, CRLF, then
exactly N bulk strings consuming the whole buffer; returns the argument
payloads in order. -/
def respParse (s : List Nat) : Option (List (List Nat)) :=
  match s with
  | 42 :: rest =>
    match parseNatAux rest 0 with
    | (n, rest1) =>
      match rest1 with
      | 13 :: 10 :: rest2 =>
        match parseBulks n rest2 with
        | some (bs, rest3) => if rest3 = [] then some bs else none
        | none => none
      | _ => none
  | _ => none

/-- decode from the source: recursively materialises text inside a decoded
reply.  The target text encoding is abstracted by the total decoding
function it induces on byte strings (Python bytes.decode with that
encoding).  Binary blobs become text, lists are decoded element-wise, and
every other value is returned unchanged. -/
def decode (obj : PyVal) (enc : List Nat → String) : PyVal :=
  match obj with
  | .bytes b => .str (enc b)
  | .list l => .list (l.attach.map (fun x => decode x.1 enc))
  | v => v
decreasing_by
  have h1 := List.sizeOf_lt_of_mem x.2
  simp only [PyVal.list.sizeOf_spec]
  omega

/-- True when a decoded reply contains no binary blob anywhere inside it. -/
def noBytes (v : PyVal) : Bool :=
  match v with
  | .bytes _ => false
  | .list l => l.attach.all (fun x => noBytes x.1)
  | _ => true
decreasing_by
  have h1 := List.sizeOf_lt_of_mem x.2
  simp only [PyVal.list.sizeOf_spec]
  omega

/-- The QUEUED transaction sentinel in its binary form. -/
def QUEUEDbytes : List Nat := [81, 85, 69, 85, 69, 68]

/-- The OK acknowledgment token in its binary form. -/
def OKbytes : List Nat := [79, 75]

/-- Membership test res in (b'QUEUED', 'QUEUED') from the source, by Python
equality: only an equal binary blob or equal text can match; values of any
other runtime type are never equal to these literals. -/
def isQueued : PyVal → Bool
  | .bytes b => b == QUEUEDbytes
  | .str s => s == "QUEUED"
  | _ => false

/-- Membership test res in (b'OK', 'OK') from the source, by Python
equality. -/
def isOk : PyVal → Bool
  | .bytes b => b == OKbytes
  | .str s => s == "OK"
  | _ => false

/-- wait_ok from the source, applied to the settled value of the inner
future: the QUEUED sentinel (binary or text) passes through unchanged;
every other value is replaced by the boolean result of the OK membership
test. -/
def wait_ok (res : PyVal) : PyVal :=
  if isQueued res then res else .bool (isOk res)

/-- Consecutive pairing of a flat sequence: the behaviour of Python
dict(zip(it, it)) on a single shared iterator — elements are consumed two
at a time and a trailing unpaired element is dropped. -/
def pairUp : List α → List (α × α)
  | a :: b :: rest => (a, b) :: pairUp rest
  | _ => []

/-- Interleaving of a pair list back into a flat sequence (the even and odd
positions of the result hold the pairs' components). -/
def flattenPairs (ps : List (α × α)) : List α :=
  ps.foldr (fun p t => p.1 :: p.2 :: t) []

mutual

/-- Elements at even indices of a list: models the Python slice with
step two starting at index zero. -/
def evens : List α → List α
  | [] => []
  | a :: rest => a :: odds rest

/-- Elements at odd indices of a list: models the Python slice with step
two starting at index one. -/
def odds : List α → List α
  | [] => []
  | _ :: rest => evens rest

end

/-- The page transform of _ScanIterPairs: list(zip(ret[0::2], ret[1::2])),
zipping the even-indexed elements with the odd-indexed ones (zip truncates
to the shorter side, silently dropping a trailing unpaired element). -/
def pairPage (ret : List α) : List (α × α) :=
  (evens ret).zip (odds ret)

/-- wait_make_dict from the source, applied to the settled value: the
QUEUED sentinel passes through (left injection); otherwise the value is
iterated and consecutive elements are paired into the dictionary entries,
in order (right injection, the dictionary modelled by its insertion-order
entry list).  Iterating a list yields its elements; iterating a binary
blob yields its byte values as ints; iterating text yields its characters
as one-character strings; ints, floats and booleans are not iterable,
which the source lets escape as a TypeError, modelled by none. -/
def wait_make_dict (res : PyVal) : Option (PyVal ⊕ List (PyVal × PyVal)) :=
  if isQueued res then some (Sum.inl res)
  else
    match res with
    | .list l => some (Sum.inr (pairUp l))
    | .bytes b => some (Sum.inr (pairUp (b.map (fun n => PyVal.int (Int.ofNat n)))))
    | .str s => some (Sum.inr (pairUp (s.data.map (fun c => PyVal.str (String.mk [c])))))
    | _ => none

/-- Key coercion of coerced_keys_dict: a key that is already a binary blob
is used as is; any other key is pushed through the _converters table
(none both when the table has no entry for its runtime type, which the
source surfaces as an uncaught KeyError from the table lookup). -/
def coerceKey : PyVal → Option (List Nat)
  | .bytes b => some b
  | k => _converters k

/-- Association-list lookup with binary keys: the underlying dict read. -/
def assocFind : List (List Nat × α) → List Nat → Option α
  | [], _ => none
  | (k, v) :: rest, key => if k = key then some v else assocFind rest key

/-- Item access of coerced_keys_dict: coerce the key, then read the
underlying mapping; a key of unsupported runtime type fails (error carries
the offending key), a coercible key yields the stored value if present. -/
def coerced_getitem (d : List (List Nat × α)) (k : PyVal) : Except PyVal (Option α) :=
  match coerceKey k with
  | none => .error k
  | some bk => .ok (assocFind d bk)

/-- Membership test of coerced_keys_dict: coerce the key, then test the
underlying mapping. -/
def coerced_contains (d : List (List Nat × α)) (k : PyVal) : Except PyVal Bool :=
  match coerceKey k with
  | none => .error k
  | some bk => .ok (assocFind d bk).isSome

/-- A scan cursor value as it flows through _ScanIter: the iterator's
initial cursor is the binary blob b'0'; afterwards the cursor is whatever
the supplied scan primitive returned (an integer for the scan commands
that drive these iterators). -/
inductive Cursor : Type where
  | bytes (b : List Nat)
  | int (i : Int)
deriving DecidableEq

/-- Python truthiness of a cursor value, the loop and termination test the
source applies to self._cur: a binary blob is truthy when nonempty, an
integer when nonzero — so the integer zero-token is the falsy cursor. -/
def truthy : Cursor → Bool
  | .bytes b => !b.isEmpty
  | .int i => i != 0

/-- The cursor value _BaseScanIter starts from: the binary blob b'0'
(truthy, so the first fetch always happens). -/
def initialCursor : Cursor := .bytes [48]

/-- The fetch loop of _ScanIter.anext: while the buffer is empty and the
cursor is truthy, call the scan primitive (modelled with an explicit
primitive state sigma threaded through the calls) and replace cursor and
buffer with what it returned.  Recursion fuel bounds the number of
primitive calls; none models a loop that has not exited within the fuel. -/
def _ScanIter_fetch (scan : σ → Cursor → σ × Cursor × List α) :
    Nat → σ → Cursor → List α → Option (σ × Cursor × List α)
  | 0, s, cur, ret =>
    if ret.isEmpty && truthy cur then none else some (s, cur, ret)
  | f + 1, s, cur, ret =>
    if ret.isEmpty && truthy cur then
      let r := scan s cur
      _ScanIter_fetch scan f r.1 r.2.1 r.2.2
    else some (s, cur, ret)

/-- One call of _ScanIter.anext: run the fetch loop; if afterwards the
cursor is falsy and the buffer empty, stop iteration (some none);
otherwise pop and yield the first buffered item together with the
successor state (some (some ...)).  The outer none covers fuel exhaustion
of the fetch loop. -/
def _ScanIter_anext (scan : σ → Cursor → σ × Cursor × List α)
    (fuel : Nat) (s : σ) (cur : Cursor) (ret : List α) :
    Option (Option (α × σ × Cursor × List α)) :=
  match _ScanIter_fetch scan fuel s cur ret with
  | none => none
  | some (s2, cur2, ret2) =>
    if !truthy cur2 && ret2.isEmpty then some none
    else
      match ret2 with
      | [] => none
      | x :: rest => some (some (x, s2, cur2, rest))

/-- The fetch loop of _ScanIterPairs.anext: identical to the plain one
except that each returned page is regrouped into consecutive pairs by
zipping its even-indexed elements with its odd-indexed ones before
buffering. -/
def _ScanIterPairs_fetch (scan : σ → Cursor → σ × Cursor × List α) :
    Nat → σ → Cursor → List (α × α) → Option (σ × Cursor × List (α × α))
  | 0, s, cur, ret =>
    if ret.isEmpty && truthy cur then none else some (s, cur, ret)
  | f + 1, s, cur, ret =>
    if ret.isEmpty && truthy cur then
      let r := scan s cur
      _ScanIterPairs_fetch scan f r.1 r.2.1 (pairPage r.2.2)
    else some (s, cur, ret)

/-- One call of _ScanIterPairs.anext, yielding key/value pairs. -/
def _ScanIterPairs_anext (scan : σ → Cursor → σ × Cursor × List α)
    (fuel : Nat) (s : σ) (cur : Cursor) (ret : List (α × α)) :
    Option (Option ((α × α) × σ × Cursor × List (α × α))) :=
  match _ScanIterPairs_fetch scan fuel s cur ret with
  | none => none
  | some (s2, cur2, ret2) =>
    if !truthy cur2 && ret2.isEmpty then some none
    else
      match ret2 with
      | [] => none
      | x :: rest => some (some (x, s2, cur2, rest))

/-- A whole iteration of _ScanIter: repeatedly call anext, collecting the
yielded items in order until normal stop-iteration; none when the fuel
does not suffice. -/
def runIter (scan : σ → Cursor → σ × Cursor × List α) :
    Nat → σ → Cursor → List α → Option (List α)
  | 0, _, _, _ => none
  | fuel + 1, s, cur, ret =>
    match _ScanIter_anext scan fuel s cur ret with
    | none => none
    | some none => some []
    | some (some (x, s2, cur2, ret2)) =>
      match runIter scan fuel s2 cur2 ret2 with
      | none => none
      | some xs => some (x :: xs)

/-- A whole iteration of _ScanIterPairs, collecting the yielded pairs. -/
def runIterPairs (scan : σ → Cursor → σ × Cursor × List α) :
    Nat → σ → Cursor → List (α × α) → Option (List (α × α))
  | 0, _, _, _ => none
  | fuel + 1, s, cur, ret =>
    match _ScanIterPairs_anext scan fuel s cur ret with
    | none => none
    | some none => some []
    | some (some (x, s2, cur2, ret2)) =>
      match runIterPairs scan fuel s2 cur2 ret2 with
      | none => none
      | some xs => some (x :: xs)

/-- A scan primitive that replies with a fixed list of pages in order (its
state is the list of replies not yet served); once the script is used up
it keeps answering with the zero-token and an empty page. -/
def pagesScan (s : List (Cursor × List α)) (_cur : Cursor) :
    List (Cursor × List α) × Cursor × List α :=
  match s with
  | [] => ([], .int 0, [])
  | r :: rs => (rs, r.1, r.2)

/-- State of an asyncio future as this layer observes it: not yet settled,
cancelled, settled with a result, or settled with an exception (exceptions
modelled by the type ε). -/
inductive FutState (α : Type) (ε : Type) : Type where
  | pending
  | cancelled
  | done (v : α)
  | failed (e : ε)

/-- fut.done() in the model: every state except pending counts as done
(a cancelled asyncio future reports done). -/
def futDone : FutState α ε → Bool
  | .pending => false
  | _ => true

/-- fut.cancelled() in the model. -/
def futCancelled : FutState α ε → Bool
  | .cancelled => true
  | _ => false

/-- The double-settlement assertion failure of the settlement helpers. -/
inductive SettleError : Type where
  | doubleSettlement
deriving DecidableEq

/-- Model of _set_result from the source: if the future is already done, assert it
was cancelled — a cancelled future is left untouched (benign no-op), while
a done-but-not-cancelled future trips the assertion (Double-Settlement
error); otherwise the result is assigned. -/
def _set_result (fut : FutState α ε) (v : α) : Except SettleError (FutState α ε) :=
  if futDone fut then
    if futCancelled fut then .ok fut else .error .doubleSettlement
  else .ok (.done v)

/-- Model of _set_exception from the source: same shape as _set_result, assigning
an exception instead of a value. -/
def _set_exception (fut : FutState α ε) (e : ε) : Except SettleError (FutState α ε) :=
  if futDone fut then
    if futCancelled fut then .ok fut else .error .doubleSettlement
  else .ok (.failed e)

/-- Modelled from the spec: the bounded least-recently-used memoisation
cache that functools.lru_cache(maxsize 1024) wraps around _bytes_len — the
cache implementation itself is Python standard-library code outside this
source, modelled here per the spec as a capacity-1024 LRU cache.  The
cache is an entry list, most recently used first.  Removal of an entry by
key, for the move-to-front on a hit. -/
def lruErase : List (Nat × List Nat) → Nat → List (Nat × List Nat)
  | [], _ => []
  | (k, v) :: rest, key =>
    if k = key then lruErase rest key else (k, v) :: lruErase rest key

/-- Modelled from the spec: lookup in the LRU entry list. -/
def lruFind : List (Nat × List Nat) → Nat → Option (List Nat)
  | [], _ => none
  | (k, v) :: rest, key => if k = key then some v else lruFind rest key

/-- Modelled from the spec: one call of the cached _bytes_len.  A hit
returns the cached value and moves its entry to the front; a miss computes
the value, inserts it at the front and truncates to the capacity of 1024
entries, evicting the least recently used entry when the cache was full. -/
def lruCall (c : List (Nat × List Nat)) (k : Nat) : List Nat × List (Nat × List Nat) :=
  match lruFind c k with
  | some v => (v, (k, v) :: lruErase c k)
  | none => (natToDigits k, ((k, natToDigits k) :: c).take 1024)

/-- Modelled from the spec: the cache state after a sequence of cached
_bytes_len calls starting from the empty cache. -/
def lruRun (ks : List Nat) : List (Nat × List Nat) :=
  ks.foldl (fun c k => (lruCall c k).2) []

theorem parse_natToDigitsAux :
    ∀ (f n acc : Nat) (rest : List Nat), n < f →
      parseNatAux (natToDigitsAux f n ++ rest) acc
        = parseNatAux rest (acc * 10 ^ (natToDigitsAux f n).length + n) := by
  intro f
  induction f with
  | zero => intro n acc rest h; omega
  | succ f ih =>
    intro n acc rest h
    by_cases h10 : n < 10
    · have hdig : 48 ≤ 48 + n ∧ 48 + n ≤ 57 := by omega
      simp only [natToDigitsAux, if_pos h10, List.cons_append, List.nil_append,
        parseNatAux, if_pos hdig, List.length_cons, List.length_nil, pow_one]
      congr 1
      omega
    · have hdiv : n / 10 < f := by
        have := Nat.div_lt_self (by omega : 0 < n) (by omega : 1 < 10)
        omega
      have hmd : n % 10 < 10 := Nat.mod_lt n (by omega)
      have hdig : 48 ≤ 48 + n % 10 ∧ 48 + n % 10 ≤ 57 := by omega
      simp only [natToDigitsAux, if_neg h10]
      rw [List.append_assoc, List.singleton_append,
        ih (n / 10) acc ((48 + n % 10) :: rest) hdiv]
      simp only [parseNatAux, if_pos hdig, List.length_append, List.length_cons,
        List.length_nil]
      congr 1
      have hmod : 10 * (n / 10) + n % 10 = n := Nat.div_add_mod n 10
      have hsub : 48 + n % 10 - 48 = n % 10 := by omega
      rw [hsub, pow_succ]
      set L := (natToDigitsAux f (n / 10)).length with hL
      have : (acc * 10 ^ L + n / 10) * 10 + n % 10
          = acc * (10 ^ L * 10) + (10 * (n / 10) + n % 10) := by ring
      rw [this, hmod]

theorem parse_digits_stop (n : Nat) (rest : List Nat) :
    parseNatAux (natToDigits n ++ 13 :: rest) 0 = (n, 13 :: rest) := by
  rw [natToDigits, parse_natToDigitsAux (n + 1) n 0 (13 :: rest) (Nat.lt_succ_self n)]
  simp [parseNatAux]

theorem parseBulk_bulk (b rest : List Nat) :
    parseBulk (bulk b ++ rest) = some (b, rest) := by
  have hshape : bulk b ++ rest
      = 36 :: (natToDigits b.length ++ 13 :: (10 :: (b ++ 13 :: 10 :: rest))) := by
    simp [bulk, _bytes_len]
  have hparse := parse_digits_stop b.length (10 :: (b ++ 13 :: 10 :: rest))
  rw [hshape]
  simp only [parseBulk, hparse]
  have hlen : ¬ (b ++ 13 :: 10 :: rest).length < b.length := by
    simp [List.length_append]
  rw [if_neg hlen, List.drop_left' rfl, List.take_left' rfl]

theorem parseBulks_join (bs : List (List Nat)) (rest : List Nat) :
    parseBulks bs.length (joinBulks bs ++ rest) = some (bs, rest) := by
  induction bs generalizing rest with
  | nil => simp [joinBulks, parseBulks]
  | cons b bs ih =>
    have hj : joinBulks (b :: bs) ++ rest = bulk b ++ (joinBulks bs ++ rest) := by
      simp [joinBulks]
    rw [List.length_cons, hj]
    simp only [parseBulks, parseBulk_bulk b (joinBulks bs ++ rest), ih rest]

theorem encodeArgs_ok (args : List PyVal)
    (h : ∀ a ∈ args, (_converters a).isSome) :
    encodeArgs args = .ok (joinBulks (args.filterMap _converters))
      ∧ (args.filterMap _converters).length = args.length := by
  induction args with
  | nil => exact ⟨rfl, rfl⟩
  | cons a rest ih =>
    have ha : (_converters a).isSome := h a (List.mem_cons_self a rest)
    obtain ⟨b, hb⟩ : ∃ b, _converters a = some b :=
      Option.isSome_iff_exists.mp ha
    have ih2 := ih (fun x hx => h x (List.mem_cons_of_mem a hx))
    constructor
    · simp only [encodeArgs, hb, ih2.1, List.filterMap_cons, joinBulks,
        List.foldr_cons]
    · simp only [List.filterMap_cons, hb, List.length_cons, ih2.2]

theorem respParse_encode (args : List PyVal)
    (h : ∀ a ∈ args, (_converters a).isSome) :
    respParse (42 :: (_bytes_len args.length
        ++ (13 :: 10 :: joinBulks (args.filterMap _converters))))
      = some (args.filterMap _converters) := by
  have hlen := (encodeArgs_ok args h).2
  have hparse := parse_digits_stop args.length
    (10 :: joinBulks (args.filterMap _converters))
  have hb := parseBulks_join (args.filterMap _converters) []
  rw [List.append_nil, hlen] at hb
  simp [respParse, _bytes_len, hparse, hb]

theorem encodeArgs_error_of_bad (args : List PyVal)
    (h : ∃ a ∈ args, _converters a = none) :
    ∃ bad, encodeArgs args = .error bad ∧ bad ∈ args ∧ _converters bad = none := by
  induction args with
  | nil => simp at h
  | cons a rest ih =>
    cases hc : _converters a with
    | none =>
      exact ⟨a, by simp [encodeArgs, hc], List.mem_cons_self a rest, hc⟩
    | some b =>
      have hrest : ∃ x ∈ rest, _converters x = none := by
        obtain ⟨x, hx, hxc⟩ := h
        rcases List.mem_cons.mp hx with hxa | hxr
        · rw [hxa] at hxc; rw [hxc] at hc; cases hc
        · exact ⟨x, hxr, hxc⟩
      obtain ⟨bad, hbad, hmem, hbc⟩ := ih hrest
      exact ⟨bad, by simp [encodeArgs, hc, hbad], List.mem_cons_of_mem a hmem, hbc⟩

theorem encode_command_error_of_bad (args : List PyVal)
    (h : ∃ a ∈ args, _converters a = none) :
    ∃ bad, encode_command args = .error bad ∧ bad ∈ args ∧ _converters bad = none := by
  obtain ⟨bad, hbad, hmem, hbc⟩ := encodeArgs_error_of_bad args h
  exact ⟨bad, by simp [encode_command, hbad], hmem, hbc⟩

/-- C1: for every argument list whose elements are each of the four
supported kinds, encode_command produces exactly the asterisk header with
the decimal argument count followed by, per argument in order, the
dollar-prefixed length-framed canonical encoding; serializing the list
SET, key, 42, 3.14 yields exactly the expected byte string; and the
reference RESP parser applied to the produced buffer recovers each
argument's binary encoding exactly. -/
theorem encode_command_wire_roundtrip :
    (∀ args : List PyVal, (∀ a ∈ args, (_converters a).isSome) →
      encode_command args
          = .ok (42 :: (_bytes_len args.length
              ++ (13 :: 10 :: joinBulks (args.filterMap _converters))))
        ∧ respParse (42 :: (_bytes_len args.length
              ++ (13 :: 10 :: joinBulks (args.filterMap _converters))))
          = some (args.filterMap _converters))
    ∧ encode_command [PyVal.str "SET", PyVal.str "key", PyVal.int 42, PyVal.float "3.14"]
        = .ok [42, 52, 13, 10,
               36, 51, 13, 10, 83, 69, 84, 13, 10,
               36, 51, 13, 10, 107, 101, 121, 13, 10,
               36, 50, 13, 10, 52, 50, 13, 10,
               36, 52, 13, 10, 51, 46, 49, 52, 13, 10] := by
  constructor
  · intro args h
    constructor
    · simp [encode_command, (encodeArgs_ok args h).1]
    · exact respParse_encode args h
  · rfl

/-- Witness for the round-trip theorem at the one-argument list holding
the int 7. -/
theorem encode_command_wire_roundtrip_witness :
    encode_command [PyVal.int 7]
        = .ok (42 :: (_bytes_len [PyVal.int 7].length
            ++ (13 :: 10 :: joinBulks ([PyVal.int 7].filterMap _converters))))
      ∧ respParse (42 :: (_bytes_len [PyVal.int 7].length
            ++ (13 :: 10 :: joinBulks ([PyVal.int 7].filterMap _converters))))
        = some ([PyVal.int 7].filterMap _converters) :=
  encode_command_wire_roundtrip.1 [PyVal.int 7]
    (by intro a ha; simp at ha; rw [ha]; rfl)

/-- C6: encoding an argument list containing a value of unsupported kind
fails with an error identifying an offending value, and no wire buffer
(not even a partial one) is returned: the result is an error carrying the
bad argument, never an ok buffer.  Instantiated shape: the error names a
member of the list whose runtime type misses the converter table. -/
theorem encode_command_unsupported :
    ∀ args : List PyVal, (∃ a ∈ args, _converters a = none) →
      ∃ bad, encode_command args = .error bad ∧ bad ∈ args
        ∧ _converters bad = none
        ∧ ∀ buf, encode_command args ≠ .ok buf := by
  intro args h
  obtain ⟨bad, hbad, hmem, hbc⟩ := encode_command_error_of_bad args h
  exact ⟨bad, hbad, hmem, hbc, fun buf hok => by rw [hbad] at hok; cases hok⟩

/-- Witness for the unsupported-argument theorem at a list holding a
boolean (runtime type bool, outside the converter table). -/
theorem encode_command_unsupported_witness :
    ∃ bad, encode_command [PyVal.str "SET", PyVal.bool true] = .error bad
      ∧ bad ∈ [PyVal.str "SET", PyVal.bool true]
      ∧ _converters bad = none
      ∧ ∀ buf, encode_command [PyVal.str "SET", PyVal.bool true] ≠ .ok buf :=
  encode_command_unsupported [PyVal.str "SET", PyVal.bool true]
    ⟨PyVal.bool true, by simp, rfl⟩

theorem fetch_buffer_nonempty (scan : σ → Cursor → σ × Cursor × List α)
    (fuel : Nat) (s : σ) (cur : Cursor) (x : α) (rest : List α) :
    _ScanIter_fetch scan fuel s cur (x :: rest) = some (s, cur, x :: rest) := by
  cases fuel <;> simp [_ScanIter_fetch]

theorem fetch_falsy_cursor (scan : σ → Cursor → σ × Cursor × List α)
    (fuel : Nat) (s : σ) (cur : Cursor) (h : truthy cur = false) :
    _ScanIter_fetch scan fuel s cur [] = some (s, cur, []) := by
  cases fuel <;> simp [_ScanIter_fetch, h]

/-- C2: the cursor iterator yields buffered items one at a time in FIFO
order without calling the primitive while the buffer is nonempty; it stops
iteration exactly when, after the fetch loop, the cursor is falsy (for the
integer cursors the scan commands return, exactly the zero-token 0) and
the buffer is empty; and the two driver examples behave as specified:
pages (5, some items 1 2) then (0, item 3) yield exactly 1, 2, 3 before a
normal stop, while an immediate (0, no items) reply yields nothing. -/
theorem scanIter_yields_in_order_and_stops_at_zero :
    runIter pagesScan 10 [(Cursor.int 5, [1, 2]), (Cursor.int 0, [3])]
        initialCursor ([] : List Nat) = some [1, 2, 3]
    ∧ runIter pagesScan 10 [(Cursor.int 0, ([] : List Nat))]
        initialCursor [] = some []
    ∧ (∀ (σ α : Type) (scan : σ → Cursor → σ × Cursor × List α)
        (fuel : Nat) (s : σ) (cur : Cursor) (x : α) (rest : List α),
        _ScanIter_anext scan fuel s cur (x :: rest)
          = some (some (x, s, cur, rest)))
    ∧ (∀ (σ α : Type) (scan : σ → Cursor → σ × Cursor × List α)
        (fuel : Nat) (s : σ) (cur : Cursor), truthy cur = false →
        _ScanIter_anext scan fuel s cur ([] : List α) = some none)
    ∧ (∀ i : Int, truthy (Cursor.int i) = false ↔ i = 0)
    ∧ (∀ (σ α : Type) (scan : σ → Cursor → σ × Cursor × List α)
        (fuel : Nat) (s : σ) (cur : Cursor) (ret : List α),
        _ScanIter_anext scan fuel s cur ret = some none →
        ∃ s2 cur2, _ScanIter_fetch scan fuel s cur ret = some (s2, cur2, [])
          ∧ truthy cur2 = false)
    ∧ (∀ (σ α : Type) (scan : σ → Cursor → σ × Cursor × List α)
        (f : Nat) (s : σ) (cur : Cursor), truthy cur = true →
        _ScanIter_anext scan (f + 1) s cur ([] : List α)
          = _ScanIter_anext scan f (scan s cur).1 (scan s cur).2.1 (scan s cur).2.2) := by
  refine ⟨by rfl, by rfl, ?_, ?_, ?_, ?_, ?_⟩
  · intro σ α scan fuel s cur x rest
    simp [_ScanIter_anext, fetch_buffer_nonempty]
  · intro σ α scan fuel s cur h
    simp [_ScanIter_anext, fetch_falsy_cursor scan fuel s cur h, h]
  · intro i
    simp [truthy]
  · intro σ α scan fuel s cur ret h
    unfold _ScanIter_anext at h
    cases hf : _ScanIter_fetch scan fuel s cur ret with
    | none => rw [hf] at h; cases h
    | some t =>
      obtain ⟨s2, cur2, ret2⟩ := t
      rw [hf] at h
      simp only at h
      by_cases hc : (!truthy cur2 && ret2.isEmpty) = true
      · have hret : ret2 = [] := by
          cases ret2 with
          | nil => rfl
          | cons y ys => simp at hc
        subst hret
        refine ⟨s2, cur2, rfl, ?_⟩
        simp only [Bool.and_eq_true, Bool.not_eq_true'] at hc
        exact hc.1
      · rw [if_neg hc] at h
        cases ret2 with
        | nil => cases h
        | cons y ys => simp at h
  · intro σ α scan f s cur h
    simp [_ScanIter_anext, _ScanIter_fetch, h]

/-- Witness for the cursor-iterator theorem: the stop component applied at
the integer zero-token cursor with an empty buffer and an exhausted page
script. -/
theorem scanIter_yields_in_order_and_stops_at_zero_witness :
    _ScanIter_anext pagesScan 3 ([] : List (Cursor × List Nat)) (Cursor.int 0)
        ([] : List Nat) = some none :=
  scanIter_yields_in_order_and_stops_at_zero.2.2.2.1
    (List (Cursor × List Nat)) Nat pagesScan 3 [] (Cursor.int 0) rfl

theorem pairPage_eq_pairUp : ∀ (l : List α), pairPage l = pairUp l
  | [] => rfl
  | [_] => rfl
  | a :: b :: rest => by
    have ih := pairPage_eq_pairUp rest
    simp only [pairPage, evens, odds, List.zip_cons_cons, pairUp] at ih ⊢
    rw [ih]

/-- Counterexample to C3 as stated: on the odd-length sequence a, 1, b the
pair-to-mapping adapter does not fail — it returns a mapping (built from
the single complete pair), silently dropping the trailing element. -/
theorem wait_make_dict_odd_no_error :
    wait_make_dict (.list [.str "a", .int 1, .str "b"])
      = some (Sum.inr [(.str "a", .int 1)]) := by
  rfl

/-- C3 (amended): on an even-length flat sequence the pair-to-mapping
adapter and the pair-variant iterator regroup consecutive elements into
key/value pairs in order; on an odd-length sequence both silently drop the
trailing unpaired element and return the pairing of the rest (no
Malformed Reply error exists in the code).  The even/odd-slice zip used by
the pair iterator performs the same consecutive pairing. -/
theorem pair_regrouping_drops_trailing :
    wait_make_dict (.list [.str "a", .int 1, .str "b", .int 2])
        = some (Sum.inr [(.str "a", .int 1), (.str "b", .int 2)])
    ∧ (∀ (α : Type) (ps : List (α × α)), pairUp (flattenPairs ps) = ps)
    ∧ (∀ (α : Type) (ps : List (α × α)) (x : α),
        pairUp (flattenPairs ps ++ [x]) = ps)
    ∧ (∀ (ps : List (Int × Int)) (x : Int),
        wait_make_dict (.list (flattenPairs (ps.map (fun p =>
          (PyVal.int p.1, PyVal.int p.2))) ++ [PyVal.int x]))
          = some (Sum.inr (ps.map (fun p => (PyVal.int p.1, PyVal.int p.2)))))
    ∧ (∀ (α : Type) (l : List α), pairPage l = pairUp l)
    ∧ runIterPairs pagesScan 10 [(Cursor.int 0, [10, 1, 20])]
        initialCursor ([] : List (Nat × Nat)) = some [(10, 1)] := by
  have hflat : ∀ (α : Type) (ps : List (α × α)), pairUp (flattenPairs ps) = ps := by
    intro α ps
    induction ps with
    | nil => rfl
    | cons p ps ih => simp [flattenPairs, pairUp] at ih ⊢; exact ih
  have hodd : ∀ (α : Type) (ps : List (α × α)) (x : α),
      pairUp (flattenPairs ps ++ [x]) = ps := by
    intro α ps x
    induction ps with
    | nil => rfl
    | cons p ps ih => simp [flattenPairs, pairUp] at ih ⊢; exact ih
  refine ⟨by rfl, hflat, hodd, ?_, ?_, by rfl⟩
  · intro ps x
    have hq : isQueued (.list (flattenPairs (ps.map (fun p =>
        (PyVal.int p.1, PyVal.int p.2))) ++ [PyVal.int x])) = false := rfl
    simp only [wait_make_dict, hq, Bool.false_eq_true, if_false]
    rw [hodd]
  · exact @pairPage_eq_pairUp

/-- C4: the key-coercing mapping canonicalizes every non-binary key
through the converter table before the underlying lookup — a text key and
an integer key retrieve a value stored under the binary key with the same
canonical encoding — and a key whose runtime type is outside the four
supported kinds makes the lookup and the membership test fail with an
error carrying the offending key. -/
theorem coerced_keys_dict_coerces_on_read :
    (∀ (α : Type) (d : List (List Nat × α)) (s : String),
        coerced_getitem d (.str s) = .ok (assocFind d (utf8Bytes s))
      ∧ coerced_contains d (.str s) = .ok (assocFind d (utf8Bytes s)).isSome)
    ∧ (∀ (α : Type) (d : List (List Nat × α)) (i : Int),
        coerced_getitem d (.int i) = .ok (assocFind d (intRepr i))
      ∧ coerced_contains d (.int i) = .ok (assocFind d (intRepr i)).isSome)
    ∧ (∀ (α : Type) (v : α) (d : List (List Nat × α)),
        coerced_getitem ((([120] : List Nat), v) :: d) (.str "x") = .ok (some v)
      ∧ coerced_contains ((([120] : List Nat), v) :: d) (.str "x") = .ok true)
    ∧ (∀ (α : Type) (v : α) (d : List (List Nat × α)),
        coerced_getitem ((([55] : List Nat), v) :: d) (.int 7) = .ok (some v)
      ∧ coerced_contains ((([55] : List Nat), v) :: d) (.int 7) = .ok true)
    ∧ (∀ (α : Type) (d : List (List Nat × α)) (b : Bool),
        coerced_getitem d (.bool b) = .error (.bool b)
      ∧ coerced_contains d (.bool b) = .error (.bool b))
    ∧ (∀ (α : Type) (d : List (List Nat × α)) (l : List PyVal),
        coerced_getitem d (.list l) = .error (.list l)
      ∧ coerced_contains d (.list l) = .error (.list l)) := by
  refine ⟨fun α d s => ⟨rfl, rfl⟩, fun α d i => ⟨rfl, rfl⟩, ?_, ?_,
    fun α d b => ⟨rfl, rfl⟩, fun α d l => ⟨rfl, rfl⟩⟩
  · intro α v d
    constructor <;> rfl
  · intro α v d
    constructor <;> rfl

/-- C5: the OK adapter passes the QUEUED sentinel (binary or text form)
through unchanged and otherwise returns a boolean that is true exactly
when the settled value equals the literal OK in binary or text form; in
particular QUEUED maps to itself, OK to true and PONG to false. -/
theorem wait_ok_adapter :
    (∀ res : PyVal, (res = .bytes QUEUEDbytes ∨ res = .str "QUEUED") →
        wait_ok res = res)
    ∧ (∀ res : PyVal, ¬(res = .bytes QUEUEDbytes ∨ res = .str "QUEUED") →
        wait_ok res = .bool (isOk res))
    ∧ (∀ res : PyVal, isOk res = true ↔ (res = .bytes OKbytes ∨ res = .str "OK"))
    ∧ (∀ res : PyVal, isQueued res = true
        ↔ (res = .bytes QUEUEDbytes ∨ res = .str "QUEUED"))
    ∧ wait_ok (.bytes QUEUEDbytes) = .bytes QUEUEDbytes
    ∧ wait_ok (.str "QUEUED") = .str "QUEUED"
    ∧ wait_ok (.bytes OKbytes) = .bool true
    ∧ wait_ok (.str "OK") = .bool true
    ∧ wait_ok (.bytes [80, 79, 78, 71]) = .bool false
    ∧ wait_ok (.str "PONG") = .bool false := by
  have hq : ∀ res : PyVal, isQueued res = true
      ↔ (res = .bytes QUEUEDbytes ∨ res = .str "QUEUED") := by
    intro res
    cases res <;> simp [isQueued]
  have hok : ∀ res : PyVal, isOk res = true
      ↔ (res = .bytes OKbytes ∨ res = .str "OK") := by
    intro res
    cases res <;> simp [isOk]
  refine ⟨?_, ?_, hok, hq, by rfl, by rfl, by rfl, by rfl, by rfl, by rfl⟩
  · intro res h
    simp [wait_ok, (hq res).mpr h]
  · intro res h
    have : isQueued res = false := by
      rcases hb : isQueued res with _ | _
      · rfl
      · exact absurd ((hq res).mp hb) h
    simp [wait_ok, this]

/-- Witness for the OK-adapter theorem: the pass-through component applied
at the text form of the QUEUED sentinel. -/
theorem wait_ok_adapter_witness : wait_ok (.str "QUEUED") = .str "QUEUED" :=
  wait_ok_adapter.1 (.str "QUEUED") (Or.inr rfl)

/-- C7: the settlement helpers assign the value or exception when the
future is pending, are a benign no-op on an already-cancelled future, and
report a Double-Settlement error when the future was already settled
without cancellation — for both the result and the exception helper. -/
theorem settlement_helpers :
    (∀ (α ε : Type) (v : α),
        _set_result (FutState.pending : FutState α ε) v = .ok (.done v))
    ∧ (∀ (α ε : Type) (v : α),
        _set_result (FutState.cancelled : FutState α ε) v = .ok .cancelled)
    ∧ (∀ (α ε : Type) (v w : α),
        _set_result (FutState.done w : FutState α ε) v
          = .error .doubleSettlement)
    ∧ (∀ (α ε : Type) (v : α) (e : ε),
        _set_result (FutState.failed e : FutState α ε) v
          = .error .doubleSettlement)
    ∧ (∀ (α ε : Type) (e : ε),
        _set_exception (FutState.pending : FutState α ε) e = .ok (.failed e))
    ∧ (∀ (α ε : Type) (e : ε),
        _set_exception (FutState.cancelled : FutState α ε) e = .ok .cancelled)
    ∧ (∀ (α ε : Type) (w : α) (e : ε),
        _set_exception (FutState.done w : FutState α ε) e
          = .error .doubleSettlement)
    ∧ (∀ (α ε : Type) (e f : ε),
        _set_exception (FutState.failed f : FutState α ε) e
          = .error .doubleSettlement) :=
  ⟨fun _ _ _ => rfl, fun _ _ _ => rfl, fun _ _ _ _ => rfl, fun _ _ _ _ => rfl,
   fun _ _ _ => rfl, fun _ _ _ => rfl, fun _ _ _ _ => rfl, fun _ _ _ _ => rfl⟩

theorem attach_map_fst (l : List α) (f : α → β) :
    l.attach.map (fun x => f x.1) = l.map f := by
  rw [List.map_attach]
  exact List.pmap_eq_map _ _ _ _

theorem decode_list_eq (l : List PyVal) (enc : List Nat → String) :
    decode (.list l) enc = .list (l.map (fun v => decode v enc)) := by
  rw [decode]
  rw [attach_map_fst l (fun v => decode v enc)]

theorem noBytes_list_iff (l : List PyVal) :
    noBytes (.list l) = true ↔ ∀ x ∈ l, noBytes x = true := by
  rw [noBytes]
  simp [List.all_eq_true]

theorem noBytes_decode (enc : List Nat → String) (v : PyVal) :
    noBytes (decode v enc) = true := by
  have H : ∀ (n : Nat) (v : PyVal), sizeOf v ≤ n → noBytes (decode v enc) = true := by
    intro n
    induction n with
    | zero =>
      intro v hv
      cases v <;> simp_arith at hv
    | succ n ih =>
      intro v hv
      cases v with
      | bytes b => rw [decode, noBytes.eq_def]
      | str s => rw [decode, noBytes.eq_def] <;> simp
      | int i => rw [decode, noBytes.eq_def] <;> simp
      | float r => rw [decode, noBytes.eq_def] <;> simp
      | bool b => rw [decode, noBytes.eq_def] <;> simp
      | list l =>
        rw [decode_list_eq]
        rw [noBytes_list_iff]
        intro y hy
        obtain ⟨x, hx, rfl⟩ := List.mem_map.mp hy
        apply ih
        have h1 := List.sizeOf_lt_of_mem hx
        have h2 : sizeOf (PyVal.list l) = 1 + sizeOf l := by simp
        omega
  exact H (sizeOf v) v (le_refl _)


/-- C8: decode converts every binary blob inside a decoded reply to text
with the requested encoding (the result contains no blob at any depth),
decodes sequences element-wise preserving their order and length at every
nesting depth, and returns every non-blob, non-sequence leaf unchanged. -/
theorem decode_recursive_structure :
    (∀ (enc : List Nat → String) (b : List Nat),
        decode (.bytes b) enc = .str (enc b))
    ∧ (∀ (enc : List Nat → String) (l : List PyVal),
        decode (.list l) enc = .list (l.map (fun v => decode v enc)))
    ∧ (∀ (enc : List Nat → String) (l : List PyVal),
        (l.map (fun v => decode v enc)).length = l.length)
    ∧ (∀ (enc : List Nat → String) (s : String), decode (.str s) enc = .str s)
    ∧ (∀ (enc : List Nat → String) (i : Int), decode (.int i) enc = .int i)
    ∧ (∀ (enc : List Nat → String) (r : String),
        decode (.float r) enc = .float r)
    ∧ (∀ (enc : List Nat → String) (b : Bool), decode (.bool b) enc = .bool b)
    ∧ (∀ (enc : List Nat → String) (v : PyVal),
        noBytes (decode v enc) = true) := by
  refine ⟨?_, ?_, ?_, ?_, ?_, ?_, ?_, fun enc v => noBytes_decode enc v⟩
  · intro enc b
    rw [decode]
  · intro enc l
    exact decode_list_eq l enc
  · intro enc l
    exact List.length_map l _
  · intro enc s
    rw [decode] <;> simp
  · intro enc i
    rw [decode] <;> simp
  · intro enc r
    rw [decode] <;> simp
  · intro enc b
    rw [decode] <;> simp

theorem lruErase_length_le (c : List (Nat × List Nat)) (k : Nat) :
    (lruErase c k).length ≤ c.length := by
  induction c with
  | nil => simp [lruErase]
  | cons p rest ih =>
    obtain ⟨k0, v0⟩ := p
    by_cases h : k0 = k <;> simp [lruErase, h] <;> omega

theorem lruErase_length_lt (c : List (Nat × List Nat)) (k : Nat) (v : List Nat)
    (h : lruFind c k = some v) : (lruErase c k).length < c.length := by
  induction c with
  | nil => simp [lruFind] at h
  | cons p rest ih =>
    obtain ⟨k0, v0⟩ := p
    by_cases hk : k0 = k
    · simp only [lruErase, if_pos hk, List.length_cons]
      have := lruErase_length_le rest k
      omega
    · simp only [lruFind, if_neg hk] at h
      simp only [lruErase, if_neg hk, List.length_cons]
      have := ih h
      omega

theorem lruCall_bound (c : List (Nat × List Nat)) (k : Nat)
    (h : c.length ≤ 1024) : (lruCall c k).2.length ≤ 1024 := by
  cases hf : lruFind c k with
  | some v =>
    simp only [lruCall, hf, List.length_cons]
    have := lruErase_length_lt c k v hf
    omega
  | none =>
    simp only [lruCall, hf, List.length_take]
    omega

/-- C9: (the cache implementation is Python standard-library code outside
this source, modelled from the spec as capacity-1024 least-recently-used)
after any sequence of cached length-formatting calls on arbitrarily many
distinct integers, the cache holds at most 1024 entries. -/
theorem lru_cache_bounded (ks : List Nat) : (lruRun ks).length ≤ 1024 := by
  have H : ∀ (ks : List Nat) (c : List (Nat × List Nat)), c.length ≤ 1024 →
      (ks.foldl (fun c k => (lruCall c k).2) c).length ≤ 1024 := by
    intro ks
    induction ks with
    | nil => intro c hc; simpa using hc
    | cons k rest ih =>
      intro c hc
      simp only [List.foldl_cons]
      exact ih _ (lruCall_bound c k hc)
  exact H ks [] (by simp)

/-- C10: encoder dispatch is by exact runtime type, not subtyping: a
boolean (whose runtime type bool is a strict subclass of the supported
int) misses the converter table, so encoding any argument list containing
one fails with an unsupported-argument error and no buffer, and the
key-coercing mapping's read operations with a boolean key fail the same
way. -/
theorem exact_type_dispatch_rejects_bool :
    (∀ b : Bool, _converters (.bool b) = none)
    ∧ (∀ (args : List PyVal) (b : Bool), PyVal.bool b ∈ args →
        ∃ bad, encode_command args = .error bad ∧ _converters bad = none
          ∧ ∀ buf, encode_command args ≠ .ok buf)
    ∧ (∀ (α : Type) (d : List (List Nat × α)) (b : Bool),
        coerced_getitem d (.bool b) = .error (.bool b)
      ∧ coerced_contains d (.bool b) = .error (.bool b)) := by
  refine ⟨fun _ => rfl, ?_, fun α d b => ⟨rfl, rfl⟩⟩
  intro args b hmem
  obtain ⟨bad, hbad, _, hbc⟩ :=
    encode_command_error_of_bad args ⟨PyVal.bool b, hmem, rfl⟩
  exact ⟨bad, hbad, hbc, fun buf hok => by rw [hbad] at hok; cases hok⟩

/-- Witness for the exact-type-dispatch theorem: the encoding component
applied at the singleton list holding the boolean false. -/
theorem exact_type_dispatch_rejects_bool_witness :
    ∃ bad, encode_command [PyVal.bool false] = .error bad
      ∧ _converters bad = none
      ∧ ∀ buf, encode_command [PyVal.bool false] ≠ .ok buf :=
  exact_type_dispatch_rejects_bool.2.1 [PyVal.bool false] false (by simp)
